import Mathlib

/-!
Verification of the ShabaniLab DataAnalysis core numerical routines.

The routines are embedded shallowly:

* numpy 1-D arrays of floats become `List Val` with `Val := Option ℚ`;
  `none` plays the role of IEEE NaN (every comparison with NaN is false,
  every arithmetic operation involving NaN yields NaN).  The claims under
  study only involve exact comparisons and exact rational arithmetic, so
  ℚ is a faithful carrier for them.  Division by zero is modelled as NaN
  (`none`); IEEE would produce ±Inf there, and no claim below depends on
  that regime.
* numpy N-D arrays (operations along the last axis) become `List (List Val)`
  whose rows are the leading-axis slices; every numpy operation used by the
  code (`np.where`, comparisons, `np.nanmin/nanmax(axis=-1)`,
  `np.argmax(axis=-1)`, `np.take_along_axis(axis=-1)`, `np.nan_to_num`,
  elementwise subtraction) acts row-wise on rectangular inputs, so the 2-D
  embedding is the row-wise application of the 1-D one.
* the in-place statement `dvdi -= offset` of `extract_switching_current`
  is modelled by returning the final contents of the `dvdi` buffer next to
  the function result, and a raised `ValueError` by `Except.error`.
-/

instance {ε α : Type} [DecidableEq ε] [DecidableEq α] : DecidableEq (Except ε α) :=
  fun x y =>
    match x, y with
    | Except.ok a, Except.ok b => decidable_of_iff (a = b) (by simp)
    | Except.error a, Except.error b => decidable_of_iff (a = b) (by simp)
    | Except.ok _, Except.error _ => isFalse (fun h => by cases h)
    | Except.error _, Except.ok _ => isFalse (fun h => by cases h)

/-- Val models one floating-point cell of a numpy array: `none` is NaN. -/
abbrev Val : Type := Option ℚ

/-- vgt models the numpy elementwise `>`: false whenever either side is NaN. -/
def vgt : Val → Val → Bool
  | some a, some b => decide (b < a)
  | _, _ => false

/-- vge models the numpy elementwise `>=`: false whenever either side is NaN. -/
def vge : Val → Val → Bool
  | some a, some b => decide (b ≤ a)
  | _, _ => false

/-- vle models the numpy elementwise `<=`: false whenever either side is NaN. -/
def vle : Val → Val → Bool
  | some a, some b => decide (a ≤ b)
  | _, _ => false

/-- vadd models IEEE addition on finite values; NaN propagates. -/
def vadd : Val → Val → Val
  | some a, some b => some (a + b)
  | _, _ => none

/-- vsub models IEEE subtraction on finite values; NaN propagates. -/
def vsub : Val → Val → Val
  | some a, some b => some (a - b)
  | _, _ => none

/-- vdiv models IEEE division on finite values; NaN propagates.  Division by
zero is mapped to NaN (IEEE would give ±Inf; no claim depends on it). -/
def vdiv : Val → Val → Val
  | some a, some b => if b = 0 then none else some (a / b)
  | _, _ => none

/-- vabs models `np.abs`; NaN propagates. -/
def vabs : Val → Val :=
  Option.map (fun q => |q|)

/-- vmid models `(a + b) / 2` on floats; NaN propagates. -/
def vmid : Val → Val → Val
  | some a, some b => some ((a + b) / 2)
  | _, _ => none

/-- nanmin models `np.nanmin(y, axis=-1)` on one slice: the minimum of the
non-NaN entries, NaN when every entry is NaN. -/
def nanmin (y : List Val) : Val :=
  match y.filterMap id with
  | [] => none
  | a :: as => some (as.foldl min a)

/-- nanmax models `np.nanmax(y, axis=-1)` on one slice. -/
def nanmax (y : List Val) : Val :=
  match y.filterMap id with
  | [] => none
  | a :: as => some (as.foldl max a)

/-- firstTrueIdx is the index of the first `true` of a boolean slice, if any. -/
def firstTrueIdx : List Bool → Option Nat
  | [] => none
  | b :: l => if b then some 0 else (firstTrueIdx l).map (· + 1)

/-- firstTrueOrZero models `np.argmax` of a boolean slice: the index of the
first `True`, or 0 when every entry is `False`. -/
def firstTrueOrZero (l : List Bool) : Nat :=
  (firstTrueIdx l).getD 0

/-- risingEdgeThreshold models the `if threshold is None` block of
`find_rising_edge` (dvdi.py lines 95-98) for one slice: an explicit
threshold is used as is, otherwise the midpoint of the slice's nanmin and
nanmax is inferred. -/
def risingEdgeThreshold (y : List Val) (threshold : Option ℚ) : Val :=
  match threshold with
  | some t => some t
  | none => vmid (nanmin y) (nanmax y)

/-- findRisingEdgeAt is the body of `find_rising_edge` (dvdi.py lines
99-108) for one slice, after the threshold has been resolved to `thr`:
`index = np.argmax(y > threshold)`, `x1 = take_along_axis(x, index)`, and
when `interp` is set, the previous sample is fetched at `index - 1` — which
numpy's `take_along_axis` interprets modulo the axis length, so for
`index = 0` it wraps to the last element, exactly as modelled by the
`if idx = 0 then length - 1` branches below. -/
def findRisingEdgeAt (x y : List Val) (thr : Val) (interp : Bool) : Val :=
  let idx := firstTrueOrZero (y.map (fun v => vgt v thr))
  let x1 := x.getD idx none
  if interp then
    let px := if idx = 0 then x.length - 1 else idx - 1
    let py := if idx = 0 then y.length - 1 else idx - 1
    let x0 := x.getD px none
    let y0 := y.getD py none
    let y1 := y.getD idx none
    let dydx := vdiv (vsub y1 y0) (vsub x1 x0)
    vadd x0 (vdiv (vsub thr y0) dydx)
  else x1

/-- find_rising_edge embeds `find_rising_edge` of dvdi.py for one slice. -/
def find_rising_edge (x y : List Val) (threshold : Option ℚ) (interp : Bool) : Val :=
  findRisingEdgeAt x y (risingEdgeThreshold y threshold) interp

/-- maskPos models `np.where(bias >= 0, dvdi, np.nan)` on one slice. -/
def maskPos (bias dvdi : List Val) : List Val :=
  List.zipWith (fun b d => if vge b (some 0) then d else none) bias dvdi

/-- maskNegAbs models `np.where(bias <= 0, np.abs(dvdi), np.nan)` on one
slice (`np.abs` acts elementwise, so applying it only on the selected
entries is the same function). -/
def maskNegAbs (bias dvdi : List Val) : List Val :=
  List.zipWith (fun b d => if vle b (some 0) then vabs d else none) bias dvdi

/-- subOffset models the in-place `dvdi -= offset` (dvdi.py line 59): the
contents of the caller's `dvdi` buffer after the statement. -/
def subOffset (dvdi : List Val) (offset : ℚ) : List Val :=
  dvdi.map (fun v => vsub v (some offset))

/-- nanToNum models `np.nan_to_num` on one cell: NaN becomes 0 (no
infinities occur in this model). -/
def nanToNum (v : Val) : ℚ :=
  v.getD 0

/-- icPos1 is the positive branch of `extract_switching_current`
(dvdi.py lines 61-65) on one slice whose offset has been subtracted. -/
def icPos1 (bias d : List Val) (threshold : Option ℚ) (interp : Bool) : ℚ :=
  nanToNum (find_rising_edge bias (maskPos bias d) threshold interp)

/-- icNeg1 is the negative branch of `extract_switching_current`
(dvdi.py lines 66-74) on one slice whose offset has been subtracted: both
arrays are reversed along the swept axis and `np.abs(dvdi)` is used. -/
def icNeg1 (bias d : List Val) (threshold : Option ℚ) (interp : Bool) : ℚ :=
  nanToNum (find_rising_edge bias.reverse (maskNegAbs bias d).reverse threshold interp)

/-- extract_switching_current embeds `extract_switching_current` of dvdi.py
for 1-D inputs.  The first component is the function result —
`Sum.inl` a scalar for side "positive"/"negative", `Sum.inr (ic_n, ic_p)`
for side "both", `Except.error` for the raised `ValueError` — and the
second component is the final contents of the caller's `dvdi` buffer
(mutated in place by `dvdi -= offset` on the non-error path). -/
def extract_switching_current (bias dvdi : List Val) (side : String)
    (threshold : Option ℚ) (interp : Bool) (offset : ℚ) :
    Except String (ℚ ⊕ ℚ × ℚ) × List Val :=
  if side = "positive" ∨ side = "negative" ∨ side = "both" then
    let d := subOffset dvdi offset
    let ic_p := icPos1 bias d threshold interp
    let ic_n := icNeg1 bias d threshold interp
    (Except.ok
      (if side = "positive" then Sum.inl ic_p
       else if side = "negative" then Sum.inl ic_n
       else Sum.inr (ic_n, ic_p)), d)
  else
    (Except.error "side should be one of: positive, negative, both", dvdi)

/-- icPosRows is the positive branch of `extract_switching_current` for 2-D
inputs.  All numpy operations involved (`np.where`, the axis -1 reductions
and gathers of `find_rising_edge`, `np.nan_to_num`) act row-wise on a
rectangular 2-D array, so the branch is the row-wise application of
`icPos1`. -/
def icPosRows (bias d : List (List Val)) (threshold : Option ℚ) (interp : Bool) :
    List ℚ :=
  List.zipWith (fun br dr => icPos1 br dr threshold interp) bias d

/-- icNegRows is the negative branch of `extract_switching_current` for 2-D
inputs, row-wise for the same reason as `icPosRows`. -/
def icNegRows (bias d : List (List Val)) (threshold : Option ℚ) (interp : Bool) :
    List ℚ :=
  List.zipWith (fun br dr => icNeg1 br dr threshold interp) bias d

/-- extract_switching_current2 embeds `extract_switching_current` of dvdi.py
for 2-D inputs (one leading axis in front of the swept axis), in the same
shape as the 1-D embedding. -/
def extract_switching_current2 (bias dvdi : List (List Val)) (side : String)
    (threshold : Option ℚ) (interp : Bool) (offset : ℚ) :
    Except String (List ℚ ⊕ List ℚ × List ℚ) × List (List Val) :=
  if side = "positive" ∨ side = "negative" ∨ side = "both" then
    let d := dvdi.map (fun row => subOffset row offset)
    (Except.ok
      (if side = "positive" then Sum.inl (icPosRows bias d threshold interp)
       else if side = "negative" then Sum.inl (icNegRows bias d threshold interp)
       else Sum.inr (icNegRows bias d threshold interp,
                     icPosRows bias d threshold interp)), d)
  else
    (Except.error "side should be one of: positive, negative, both", dvdi)

/-- minAbsIdx scans a slice and returns the minimum of the absolute values
together with the index of its first occurrence (numpy `np.argmin` picks the
first occurrence of the minimum). -/
def minAbsIdx : List ℚ → ℚ × Nat
  | [] => (0, 0)
  | [a] => (|a|, 0)
  | a :: b :: t =>
    let r := minAbsIdx (b :: t)
    if |a| ≤ r.1 then (|a|, 0) else (r.1, r.2 + 1)

/-- argminAbs models `np.argmin(np.abs(field))`. -/
def argminAbs (l : List ℚ) : Nat :=
  (minAbsIdx l).2

/-- mirrorPos models `np.concatenate((-f[1:][::-1], f))` of
`symmetrize_fraunhofer` (utils.py lines 167-169): the kept positive side is
reflected about zero and prepended, negating the mirrored field values and
dropping the duplicate zero-index sample. -/
def mirrorPos (f : List ℚ) : List ℚ :=
  ((f.drop 1).reverse.map (fun q => -q)) ++ f

/-- mirrorPosIc models `np.concatenate((i[1:][::-1], i))` (utils.py line 170). -/
def mirrorPosIc (i : List ℚ) : List ℚ :=
  (i.drop 1).reverse ++ i

/-- mirrorNeg models `np.concatenate((f, -f[:-1][::-1]))` (utils.py line 174). -/
def mirrorNeg (f : List ℚ) : List ℚ :=
  f ++ (f.dropLast.reverse.map (fun q => -q))

/-- mirrorNegIc models `np.concatenate((i, i[:-1][::-1]))` (utils.py line 175). -/
def mirrorNegIc (i : List ℚ) : List ℚ :=
  i ++ i.dropLast.reverse

/-- symmetrize_fraunhofer embeds `symmetrize_fraunhofer` of
jj/fraunhofer/utils.py for 1-D rational arrays: normalize to ascending field
order, locate the sample closest to zero field, keep the longer side and
mirror it across zero.  Python indexing `field[0]`, `field[1]` (which raises
for fewer than two samples) is rendered with `getD`; the claims below only
concern inputs with at least two samples.  `len(field[:index]) >
len(field[index+1:])` is `L - index - 1 < index` on naturals, whose
truncated subtraction matches Python slice lengths.

ascField and ascIc model the normalization step (utils.py lines 144-146):
if the first two field samples are descending, both arrays are reversed. -/
def ascField (field : List ℚ) : List ℚ :=
  if field.getD 1 0 < field.getD 0 0 then field.reverse else field

/-- ascIc is the `ic` half of the same normalization step. -/
def ascIc (field ic : List ℚ) : List ℚ :=
  if field.getD 1 0 < field.getD 0 0 then ic.reverse else ic

/-- symmetrize_fraunhofer embeds the remainder of `symmetrize_fraunhofer`
(utils.py lines 148-176); see the comment on `ascField` above. -/
def symmetrize_fraunhofer (field ic : List ℚ) : List ℚ × List ℚ :=
  let field1 := ascField field
  let ic1 := ascIc field ic
  let idx := argminAbs field1
  if idx = 0 then
    (mirrorPos field1, mirrorPosIc ic1)
  else if idx = field1.length - 1 then
    (mirrorNeg field1, mirrorNegIc ic1)
  else if field1.length - idx - 1 < idx then
    (mirrorNeg (field1.take (idx + 1)), mirrorNegIc (ic1.take (idx + 1)))
  else
    (mirrorPos (field1.drop idx), mirrorPosIc (ic1.drop idx))

/-- ovles is `≤` on masked cells where `none` stands for `-np.inf`. -/
def ovles : Option ℚ → Option ℚ → Bool
  | none, _ => true
  | some _, none => false
  | some a, some b => decide (a ≤ b)

/-- maxIdxAux scans a masked slice and returns the maximum (with `none` as
`-np.inf`) together with the index of its first occurrence. -/
def maxIdxAux : List (Option ℚ) → Option ℚ × Nat
  | [] => (none, 0)
  | [a] => (a, 0)
  | a :: b :: t =>
    let r := maxIdxAux (b :: t)
    if ovles r.1 a then (a, 0) else (r.1, r.2 + 1)

/-- argmaxMasked models `np.argmax` over a slice whose masked-out entries
hold `-np.inf` (rendered `none`): the first index of the maximum, 0 when
every entry is masked. -/
def argmaxMasked (l : List (Option ℚ)) : Nat :=
  (maxIdxAux l).2

/-- fraunhofer_max_loc models the argmax of `find_fraunhofer_center`
(utils.py lines 62-67): when `field_lim` is given, entries outside the open
field window are masked to `-np.inf` before the argmax. -/
def fraunhofer_max_loc (field ic : List ℚ) (field_lim : Option (ℚ × ℚ)) : Nat :=
  match field_lim with
  | some lim =>
    argmaxMasked
      (List.zipWith (fun f i => if lim.1 < f ∧ f < lim.2 then some i else none)
        field ic)
  | none => argmaxMasked (ic.map some)

/-- fraunhofer_window models the peak-window extraction of
`find_fraunhofer_center` (utils.py lines 68-72).  `width_index` stands for
`int(round(peak_widths(ic, [max_loc], rel_height=0.5)[0][0] * 0.65))`,
computed by scipy (an external collaborator) and therefore taken as a
parameter.  Python `start_index = max(0, max_loc - width_index)` is natural
truncated subtraction, and the slice `a[s : e]` with `0 ≤ s ≤ e` is
`(a.drop s).take (e - s)`.  The returned triple is `(start_index,
subset_field, subset_ic)`. -/
def fraunhofer_window (field ic : List ℚ) (field_lim : Option (ℚ × ℚ))
    (width_index : Nat) : Nat × List ℚ × List ℚ :=
  let max_loc := fraunhofer_max_loc field ic field_lim
  let start := max_loc - width_index
  let stop := max_loc + width_index + 1
  (start, (field.drop start).take (stop - start), (ic.drop start).take (stop - start))

/-- find_fraunhofer_center embeds `find_fraunhofer_center` of utils.py up to
its external collaborators: the Gaussian fit (lmfit) is taken as a parameter
`fit_center` mapping the windowed field/ic subsets to the fitted center, and
`width_index` as in `fraunhofer_window`. -/
def find_fraunhofer_center (field ic : List ℚ) (field_lim : Option (ℚ × ℚ))
    (width_index : Nat) (fit_center : List ℚ → List ℚ → ℚ) : ℚ :=
  let w := fraunhofer_window field ic field_lim width_index
  fit_center w.2.1 w.2.2

lemma firstTrueIdx_eq_none_of_all_false :
    ∀ {l : List Bool}, (∀ b ∈ l, b = false) → firstTrueIdx l = none
  | [], _ => rfl
  | b :: l, h => by
    have hb : b = false := h b (by simp)
    have ht : firstTrueIdx l = none :=
      firstTrueIdx_eq_none_of_all_false (fun c hc => h c (by simp [hc]))
    simp [firstTrueIdx, hb, ht]

lemma firstTrueOrZero_eq_zero_of_all_false {l : List Bool}
    (h : ∀ b ∈ l, b = false) : firstTrueOrZero l = 0 := by
  simp [firstTrueOrZero, firstTrueIdx_eq_none_of_all_false h]

lemma findRisingEdgeAt_of_no_edge (x y : List Val) (thr : Val)
    (h : ∀ v ∈ y, vgt v thr = false) :
    findRisingEdgeAt x y thr false = x.getD 0 none := by
  have hz : firstTrueOrZero (y.map fun v => vgt v thr) = 0 := by
    apply firstTrueOrZero_eq_zero_of_all_false
    intro b hb
    obtain ⟨v, hv, rfl⟩ := List.mem_map.mp hb
    exact h v hv
  simp [findRisingEdgeAt, hz]

lemma getD_zipWith {α β γ : Type} (f : α → β → γ) (da : α) (db : β) (dc : γ) :
    ∀ (as : List α) (bs : List β) (i : Nat), i < as.length → i < bs.length →
      (List.zipWith f as bs).getD i dc = f (as.getD i da) (bs.getD i db)
  | _ :: _, _ :: _, 0, _, _ => rfl
  | a :: as, b :: bs, i + 1, ha, hb => by
    simpa using getD_zipWith f da db dc as bs i (by simpa using ha) (by simpa using hb)

/-- C2: on bias = [-2,-1,0,1,2,3], dvdi = [5,5,0,0,5,5] with threshold 5/2,
no interpolation and no offset, the extractor returns 2 on the positive side
and -1 on the negative side. -/
theorem extract_example_values :
    (extract_switching_current
        [some (-2), some (-1), some 0, some 1, some 2, some 3]
        [some 5, some 5, some 0, some 0, some 5, some 5]
        "positive" (some (5/2)) false 0).1 = Except.ok (Sum.inl 2) ∧
    (extract_switching_current
        [some (-2), some (-1), some 0, some 1, some 2, some 3]
        [some 5, some 5, some 0, some 0, some 5, some 5]
        "negative" (some (5/2)) false 0).1 = Except.ok (Sum.inl (-1)) := by
  constructor
  all_goals
    norm_num [extract_switching_current, icPos1, icNeg1, find_rising_edge,
      findRisingEdgeAt, risingEdgeThreshold, firstTrueOrZero, firstTrueIdx,
      maskPos, maskNegAbs, subOffset, nanToNum, vgt, vge, vle, vadd, vsub,
      vdiv, vabs, vmid, nanmin, nanmax]
  all_goals decide

/-- C3: the code is not pure in `dvdi` — the in-place `dvdi -= offset`
(dvdi.py line 59) leaves the caller's array decremented by `offset`.  At
bias = [0, 1], dvdi = [5, 5], side "positive", threshold 1, offset 1, the
caller's dvdi buffer holds [4, 4] after the call instead of [5, 5]. -/
theorem extract_mutates_dvdi_at_failing_input :
    (extract_switching_current [some 0, some 1] [some 5, some 5]
        "positive" (some 1) false 1).2 = [some 4, some 4] ∧
    ([some 4, some 4] : List Val) ≠ [some 5, some 5] := by
  constructor
  · norm_num [extract_switching_current, subOffset, vsub]
  · norm_num

/-- C4: for every input, side "both" returns the pair (negative branch,
positive branch), whose components equal the results of the side
"negative" and side "positive" calls on identical fresh inputs. -/
theorem extract_both_stacks_negative_positive (bias dvdi : List Val)
    (t : Option ℚ) (itp : Bool) (off : ℚ) :
    ∃ n p : ℚ,
      (extract_switching_current bias dvdi "both" t itp off).1
        = Except.ok (Sum.inr (n, p)) ∧
      (extract_switching_current bias dvdi "negative" t itp off).1
        = Except.ok (Sum.inl n) ∧
      (extract_switching_current bias dvdi "positive" t itp off).1
        = Except.ok (Sum.inl p) :=
  ⟨icNeg1 bias (subOffset dvdi off) t itp,
   icPos1 bias (subOffset dvdi off) t itp, rfl, rfl, rfl⟩

/-- C6: the extractor fails with the invalid-argument error exactly when
`side` is none of "positive", "negative", "both", and on that error path it
returns before touching any state, so the caller's dvdi buffer is
unchanged; every valid side yields a normal result. -/
theorem extract_invalid_side_error_iff (bias dvdi : List Val) (side : String)
    (t : Option ℚ) (itp : Bool) (off : ℚ) :
    (¬(side = "positive" ∨ side = "negative" ∨ side = "both") →
      extract_switching_current bias dvdi side t itp off
        = (Except.error "side should be one of: positive, negative, both", dvdi)) ∧
    ((side = "positive" ∨ side = "negative" ∨ side = "both") →
      ∃ r, (extract_switching_current bias dvdi side t itp off).1 = Except.ok r) := by
  constructor
  · intro h
    simp [extract_switching_current, h]
  · intro h
    rcases h with h | h | h <;> subst h
    · exact ⟨Sum.inl (icPos1 bias (subOffset dvdi off) t itp), rfl⟩
    · exact ⟨Sum.inl (icNeg1 bias (subOffset dvdi off) t itp), rfl⟩
    · exact ⟨Sum.inr (icNeg1 bias (subOffset dvdi off) t itp,
        icPos1 bias (subOffset dvdi off) t itp), rfl⟩

theorem extract_invalid_side_error_iff_witness :
    extract_switching_current [some 1] [some 2] "bogus" none false 0
        = (Except.error "side should be one of: positive, negative, both", [some 2]) ∧
    ∃ r, (extract_switching_current [some 1] [some 2] "positive" none false 0).1
        = Except.ok r :=
  ⟨(extract_invalid_side_error_iff [some 1] [some 2] "bogus" none false 0).1
      (by decide),
   (extract_invalid_side_error_iff [some 1] [some 2] "positive" none false 0).2
      (by decide)⟩

/-- C9: whenever the peak window would extend past the start of the array
(max_loc - width_index < 0 as integers, i.e. max_loc < width_index), the
window start is clamped to 0 and the extracted subsets are the first
max_loc + width_index + 1 samples of field and ic; the computation is total
(no exception is modelled anywhere in it). -/
theorem fraunhofer_window_clamped_at_start (field ic : List ℚ)
    (lim : Option (ℚ × ℚ)) (w : Nat)
    (h : fraunhofer_max_loc field ic lim < w) :
    (fraunhofer_window field ic lim w).1 = 0 ∧
    (fraunhofer_window field ic lim w).2.1
      = field.take (fraunhofer_max_loc field ic lim + w + 1) ∧
    (fraunhofer_window field ic lim w).2.2
      = ic.take (fraunhofer_max_loc field ic lim + w + 1) := by
  have hs : fraunhofer_max_loc field ic lim - w = 0 := by omega
  refine ⟨?_, ?_, ?_⟩ <;> simp [fraunhofer_window, hs]

theorem fraunhofer_window_clamped_at_start_witness :
    fraunhofer_max_loc [1, 2, 3] [9, 1, 1] none < 2 ∧
    ((fraunhofer_window [1, 2, 3] [9, 1, 1] none 2).1 = 0 ∧
     (fraunhofer_window [1, 2, 3] [9, 1, 1] none 2).2.1
       = List.take (fraunhofer_max_loc [1, 2, 3] [9, 1, 1] none + 2 + 1) [1, 2, 3] ∧
     (fraunhofer_window [1, 2, 3] [9, 1, 1] none 2).2.2
       = List.take (fraunhofer_max_loc [1, 2, 3] [9, 1, 1] none + 2 + 1) [9, 1, 1]) :=
  ⟨by decide, fraunhofer_window_clamped_at_start [1, 2, 3] [9, 1, 1] none 2 (by decide)⟩

lemma reverse_mirrorPosIc (l : List ℚ) : (mirrorPosIc l).reverse = mirrorPosIc l := by
  cases l with
  | nil => rfl
  | cons a t => simp [mirrorPosIc, List.reverse_append]

lemma reverse_mirrorNegIc (l : List ℚ) : (mirrorNegIc l).reverse = mirrorNegIc l := by
  induction l using List.reverseRecOn with
  | nil => rfl
  | append_singleton s a _ => simp [mirrorNegIc, List.reverse_append]

lemma reverse_mirrorPos_of_head_zero (t : List ℚ) :
    (mirrorPos (0 :: t)).reverse = (mirrorPos (0 :: t)).map (fun q => -q) := by
  simp [mirrorPos, List.reverse_append, List.map_map, Function.comp_def]

lemma reverse_mirrorNeg_of_last_zero (s : List ℚ) :
    (mirrorNeg (s ++ [0])).reverse = (mirrorNeg (s ++ [0])).map (fun q => -q) := by
  simp [mirrorNeg, List.reverse_append, List.map_map, Function.comp_def, List.map_append]

lemma getD_symm_of_rev_eq {l : List ℚ} (h : l.reverse = l) {i : Nat}
    (hi : i < l.length) : l.getD i 0 = l.getD (l.length - 1 - i) 0 := by
  rw [List.getD_eq_getElem?_getD, List.getD_eq_getElem?_getD]
  conv_lhs => rw [← h]
  rw [List.getElem?_reverse hi]

lemma getD_antisymm_of_rev_eq_map_neg {l : List ℚ}
    (h : l.reverse = l.map (fun q => -q)) {i : Nat} (hi : i < l.length) :
    l.getD i 0 = -(l.getD (l.length - 1 - i) 0) := by
  have e : l.reverse[i]? = (l.map (fun q => -q))[i]? := by rw [h]
  rw [List.getElem?_reverse hi, List.getElem?_map] at e
  rw [List.getD_eq_getElem?_getD, List.getD_eq_getElem?_getD, e]
  cases l[i]? with
  | none => simp
  | some v => simp

/-- C10: in `find_rising_edge` with interp=True, when the threshold crossing
is at index 0 of the swept axis, the "previous" sample for the linear
interpolation is fetched at index -1, which wraps around: both x0 and y0 are
taken from the LAST element of the swept axis, so the interpolation line is
drawn between the last sample and the first one rather than between two
adjacent samples. -/
theorem find_rising_edge_interp_wraparound (x y : List Val) (t : ℚ)
    (h0 : vgt (y.getD 0 none) (some t) = true) :
    find_rising_edge x y (some t) true
      = vadd (x.getD (x.length - 1) none)
          (vdiv (vsub (some t) (y.getD (y.length - 1) none))
            (vdiv (vsub (y.getD 0 none) (y.getD (y.length - 1) none))
              (vsub (x.getD 0 none) (x.getD (x.length - 1) none)))) := by
  cases y with
  | nil => simp [vgt] at h0
  | cons v ys =>
    have hv : vgt v (some t) = true := h0
    have hidx : firstTrueOrZero (vgt v (some t) :: List.map (fun w => vgt w (some t)) ys) = 0 := by
      simp [firstTrueOrZero, firstTrueIdx, hv]
    simp [find_rising_edge, risingEdgeThreshold, findRisingEdgeAt, hidx]

theorem find_rising_edge_interp_wraparound_witness :
    vgt (([some 5, some 0, some 0] : List Val).getD 0 none) (some 2) = true ∧
    find_rising_edge [some 1, some 2, some 3] [some 5, some 0, some 0]
        (some 2) true
      = vadd (([some 1, some 2, some 3] : List Val).getD
            (([some 1, some 2, some 3] : List Val).length - 1) none)
          (vdiv (vsub (some 2) (([some 5, some 0, some 0] : List Val).getD
              (([some 5, some 0, some 0] : List Val).length - 1) none))
            (vdiv (vsub (([some 5, some 0, some 0] : List Val).getD 0 none)
                (([some 5, some 0, some 0] : List Val).getD
                  (([some 5, some 0, some 0] : List Val).length - 1) none))
              (vsub (([some 1, some 2, some 3] : List Val).getD 0 none)
                (([some 1, some 2, some 3] : List Val).getD
                  (([some 1, some 2, some 3] : List Val).length - 1) none)))) :=
  ⟨by decide,
   find_rising_edge_interp_wraparound [some 1, some 2, some 3]
     [some 5, some 0, some 0] 2 (by decide)⟩

/-- C1 counterexample: at bias = [-2,-1,0,1,2,3], dvdi = [1,1,1,1,1,1],
threshold 3, no interpolation, side "positive", the dvdi values never exceed
the threshold on the positive branch, yet the extractor returns -2 (the
first bias sample), not 0: `np.argmax` of an all-False slice is 0 and
`bias[0] = -2` is a normal number that `np.nan_to_num` leaves alone. -/
theorem extract_no_edge_not_zero_cex :
    (∀ v ∈ maskPos [some (-2), some (-1), some 0, some 1, some 2, some 3]
        (subOffset [some 1, some 1, some 1, some 1, some 1, some 1] 0),
      vgt v (some 3) = false) ∧
    (extract_switching_current
        [some (-2), some (-1), some 0, some 1, some 2, some 3]
        [some 1, some 1, some 1, some 1, some 1, some 1]
        "positive" (some 3) false 0).1 = Except.ok (Sum.inl (-2)) ∧
    ((-2 : ℚ) ≠ 0) := by
  refine ⟨?_, ?_, by norm_num⟩
  · norm_num [maskPos, subOffset, vsub, vge, vgt]
  · norm_num [extract_switching_current, icPos1, icNeg1, find_rising_edge,
      findRisingEdgeAt, risingEdgeThreshold, firstTrueOrZero, firstTrueIdx,
      maskPos, maskNegAbs, subOffset, nanToNum, vgt, vge, vle, vadd, vsub,
      vdiv, vabs, vmid, nanmin, nanmax]

/-- C1 (amended): per branch — if that branch's masked dvdi values never
exceed the threshold in use (the other branch is unconstrained), the
extractor does not return 0 in general: with interp=False it returns
`np.nan_to_num(bias[0])` on the positive side and `np.nan_to_num(bias[-1])`
on the negative side — the first sample of the (possibly reversed) bias
axis — which is 0 exactly when that bias sample is 0 or NaN. -/
theorem extract_no_edge_returns_boundary_bias (bias dvdi : List Val)
    (t : Option ℚ) (off : ℚ) :
    ((∀ v ∈ maskPos bias (subOffset dvdi off),
        vgt v (risingEdgeThreshold (maskPos bias (subOffset dvdi off)) t) = false) →
      (extract_switching_current bias dvdi "positive" t false off).1
        = Except.ok (Sum.inl (nanToNum (bias.getD 0 none)))) ∧
    ((∀ v ∈ (maskNegAbs bias (subOffset dvdi off)).reverse,
        vgt v (risingEdgeThreshold ((maskNegAbs bias (subOffset dvdi off)).reverse) t)
          = false) →
      (extract_switching_current bias dvdi "negative" t false off).1
        = Except.ok (Sum.inl (nanToNum (bias.reverse.getD 0 none)))) := by
  constructor
  · intro hp
    show Except.ok (Sum.inl (icPos1 bias (subOffset dvdi off) t false)) = _
    rw [icPos1, find_rising_edge, findRisingEdgeAt_of_no_edge _ _ _ hp]
  · intro hn
    show Except.ok (Sum.inl (icNeg1 bias (subOffset dvdi off) t false)) = _
    rw [icNeg1, find_rising_edge, findRisingEdgeAt_of_no_edge _ _ _ hn]

theorem extract_no_edge_returns_boundary_bias_witness :
    (∀ v ∈ maskPos [some (-2), some 1] (subOffset [some 1, some 1] 0),
      vgt v (risingEdgeThreshold
        (maskPos [some (-2), some 1] (subOffset [some 1, some 1] 0)) (some 3))
        = false) ∧
    (∀ v ∈ (maskNegAbs [some (-2), some 1] (subOffset [some 1, some 1] 0)).reverse,
      vgt v (risingEdgeThreshold
        ((maskNegAbs [some (-2), some 1] (subOffset [some 1, some 1] 0)).reverse)
        (some 3)) = false) ∧
    ((extract_switching_current [some (-2), some 1] [some 1, some 1]
        "positive" (some 3) false 0).1
      = Except.ok (Sum.inl (nanToNum (([some (-2), some 1] : List Val).getD 0 none))) ∧
     (extract_switching_current [some (-2), some 1] [some 1, some 1]
        "negative" (some 3) false 0).1
      = Except.ok (Sum.inl (nanToNum (([some (-2), some 1] : List Val).reverse.getD 0 none)))) ∧
    (∀ v ∈ maskPos [some (-1), some 1] (subOffset [some 5, some 1] 0),
      vgt v (risingEdgeThreshold
        (maskPos [some (-1), some 1] (subOffset [some 5, some 1] 0)) (some 3))
        = false) ∧
    (extract_switching_current [some (-1), some 1] [some 5, some 1]
        "positive" (some 3) false 0).1
      = Except.ok (Sum.inl (nanToNum (([some (-1), some 1] : List Val).getD 0 none))) := by
  have h1 : ∀ v ∈ maskPos [some (-2), some 1] (subOffset [some 1, some 1] 0),
      vgt v (risingEdgeThreshold
        (maskPos [some (-2), some 1] (subOffset [some 1, some 1] 0)) (some 3))
        = false := by
    norm_num [maskPos, subOffset, vsub, vge, vgt, risingEdgeThreshold]
  have h2 : ∀ v ∈ (maskNegAbs [some (-2), some 1] (subOffset [some 1, some 1] 0)).reverse,
      vgt v (risingEdgeThreshold
        ((maskNegAbs [some (-2), some 1] (subOffset [some 1, some 1] 0)).reverse)
        (some 3)) = false := by
    norm_num [maskNegAbs, subOffset, vsub, vle, vabs, vgt, risingEdgeThreshold]
  have h3 : ∀ v ∈ maskPos [some (-1), some 1] (subOffset [some 5, some 1] 0),
      vgt v (risingEdgeThreshold
        (maskPos [some (-1), some 1] (subOffset [some 5, some 1] 0)) (some 3))
        = false := by
    norm_num [maskPos, subOffset, vsub, vge, vgt, risingEdgeThreshold]
  exact ⟨h1, h2,
    ⟨(extract_no_edge_returns_boundary_bias [some (-2), some 1] [some 1, some 1]
        (some 3) 0).1 h1,
     (extract_no_edge_returns_boundary_bias [some (-2), some 1] [some 1, some 1]
        (some 3) 0).2 h2⟩,
    h3,
    (extract_no_edge_returns_boundary_bias [some (-1), some 1] [some 5, some 1]
        (some 3) 0).1 h3⟩

lemma getD_map {α β : Type} (f : α → β) (l : List α) (i : Nat) (da : α) (db : β)
    (h : i < l.length) : (l.map f).getD i db = f (l.getD i da) := by
  rw [List.getD_eq_getElem _ _ (by simpa using h), List.getD_eq_getElem _ _ h]
  simp

/-- C5: with threshold = None, each leading-axis slice gets its own inferred
threshold — the output in slice i depends only on the bias/dvdi rows of
slice i, through the midpoint `(nanmin + nanmax) / 2` of that slice's
branch-masked (NaN entries excluded by nanmin/nanmax) offset-subtracted
dvdi values. -/
theorem extract2_per_slice_threshold (bias dvdi : List (List Val)) (itp : Bool)
    (off : ℚ) (i : Nat) (hib : i < bias.length) (hid : i < dvdi.length) :
    (extract_switching_current2 bias dvdi "both" none itp off).1
      = Except.ok (Sum.inr
          (icNegRows bias (dvdi.map (fun row => subOffset row off)) none itp,
           icPosRows bias (dvdi.map (fun row => subOffset row off)) none itp)) ∧
    (icPosRows bias (dvdi.map (fun row => subOffset row off)) none itp).getD i 0
      = nanToNum (findRisingEdgeAt (bias.getD i [])
          (maskPos (bias.getD i []) (subOffset (dvdi.getD i []) off))
          (vmid (nanmin (maskPos (bias.getD i []) (subOffset (dvdi.getD i []) off)))
            (nanmax (maskPos (bias.getD i []) (subOffset (dvdi.getD i []) off)))) itp) ∧
    (icNegRows bias (dvdi.map (fun row => subOffset row off)) none itp).getD i 0
      = nanToNum (findRisingEdgeAt (bias.getD i []).reverse
          (maskNegAbs (bias.getD i []) (subOffset (dvdi.getD i []) off)).reverse
          (vmid
            (nanmin ((maskNegAbs (bias.getD i []) (subOffset (dvdi.getD i []) off)).reverse))
            (nanmax ((maskNegAbs (bias.getD i []) (subOffset (dvdi.getD i []) off)).reverse)))
          itp) := by
  have hid2 : i < (dvdi.map (fun row => subOffset row off)).length := by
    simpa using hid
  have hmap : (dvdi.map (fun row => subOffset row off)).getD i []
      = subOffset (dvdi.getD i []) off :=
    getD_map _ _ _ [] _ hid
  refine ⟨rfl, ?_, ?_⟩
  · rw [icPosRows, getD_zipWith _ [] [] 0 _ _ _ hib hid2, hmap]
    rfl
  · rw [icNegRows, getD_zipWith _ [] [] 0 _ _ _ hib hid2, hmap]
    rfl

theorem extract2_per_slice_threshold_witness :
    0 < ([[some (-1), some 0, some 1]] : List (List Val)).length ∧
    0 < ([[some 0, some 0, some 5]] : List (List Val)).length ∧
    ((extract_switching_current2 [[some (-1), some 0, some 1]]
        [[some 0, some 0, some 5]] "both" none false 0).1
      = Except.ok (Sum.inr
          (icNegRows [[some (-1), some 0, some 1]]
            (([[some 0, some 0, some 5]] : List (List Val)).map
              (fun row => subOffset row 0)) none false,
           icPosRows [[some (-1), some 0, some 1]]
            (([[some 0, some 0, some 5]] : List (List Val)).map
              (fun row => subOffset row 0)) none false)) ∧
     (icPosRows [[some (-1), some 0, some 1]]
        (([[some 0, some 0, some 5]] : List (List Val)).map
          (fun row => subOffset row 0)) none false).getD 0 0
      = nanToNum (findRisingEdgeAt
          (([[some (-1), some 0, some 1]] : List (List Val)).getD 0 [])
          (maskPos (([[some (-1), some 0, some 1]] : List (List Val)).getD 0 [])
            (subOffset (([[some 0, some 0, some 5]] : List (List Val)).getD 0 []) 0))
          (vmid
            (nanmin (maskPos (([[some (-1), some 0, some 1]] : List (List Val)).getD 0 [])
              (subOffset (([[some 0, some 0, some 5]] : List (List Val)).getD 0 []) 0)))
            (nanmax (maskPos (([[some (-1), some 0, some 1]] : List (List Val)).getD 0 [])
              (subOffset (([[some 0, some 0, some 5]] : List (List Val)).getD 0 []) 0))))
          false) ∧
     (icNegRows [[some (-1), some 0, some 1]]
        (([[some 0, some 0, some 5]] : List (List Val)).map
          (fun row => subOffset row 0)) none false).getD 0 0
      = nanToNum (findRisingEdgeAt
          (([[some (-1), some 0, some 1]] : List (List Val)).getD 0 []).reverse
          (maskNegAbs (([[some (-1), some 0, some 1]] : List (List Val)).getD 0 [])
            (subOffset (([[some 0, some 0, some 5]] : List (List Val)).getD 0 []) 0)).reverse
          (vmid
            (nanmin ((maskNegAbs
              (([[some (-1), some 0, some 1]] : List (List Val)).getD 0 [])
              (subOffset (([[some 0, some 0, some 5]] : List (List Val)).getD 0 []) 0)).reverse))
            (nanmax ((maskNegAbs
              (([[some (-1), some 0, some 1]] : List (List Val)).getD 0 [])
              (subOffset (([[some 0, some 0, some 5]] : List (List Val)).getD 0 []) 0)).reverse)))
          false)) :=
  ⟨by decide, by decide,
   extract2_per_slice_threshold [[some (-1), some 0, some 1]]
     [[some 0, some 0, some 5]] false 0 0 (by decide) (by decide)⟩

lemma minAbsIdx_snd_lt (a : ℚ) (l : List ℚ) :
    (minAbsIdx (a :: l)).2 < (a :: l).length := by
  induction l generalizing a with
  | nil => simp [minAbsIdx]
  | cons b t ih =>
    simp only [minAbsIdx]
    split
    · simp
    · have := ih b
      simp only [List.length_cons] at this ⊢
      omega

lemma argminAbs_lt_length {l : List ℚ} (h : l ≠ []) : argminAbs l < l.length := by
  cases l with
  | nil => exact absurd rfl h
  | cons a t => simpa [argminAbs] using minAbsIdx_snd_lt a t

lemma getD_take_eq {l : List ℚ} {n i : Nat} (hin : i < n) (hil : i < l.length) :
    (l.take n).getD i 0 = l.getD i 0 := by
  have h1 : i < (l.take n).length := by simp [List.length_take]; omega
  rw [List.getD_eq_getElem _ _ h1, List.getD_eq_getElem _ _ hil]
  simp

lemma getD_drop_zero {l : List ℚ} {n : Nat} (h : n < l.length) :
    (l.drop n).getD 0 0 = l.getD n 0 := by
  have h1 : 0 < (l.drop n).length := by simp [List.length_drop]; omega
  rw [List.getD_eq_getElem _ _ h1, List.getD_eq_getElem _ _ h]
  simp

lemma getD_mirrorPosIc_symm (z : List ℚ) {i : Nat}
    (hi : i < (mirrorPosIc z).length) :
    (mirrorPosIc z).getD i 0
      = (mirrorPosIc z).getD ((mirrorPosIc z).length - 1 - i) 0 :=
  getD_symm_of_rev_eq (reverse_mirrorPosIc z) hi

lemma getD_mirrorNegIc_symm (z : List ℚ) {i : Nat}
    (hi : i < (mirrorNegIc z).length) :
    (mirrorNegIc z).getD i 0
      = (mirrorNegIc z).getD ((mirrorNegIc z).length - 1 - i) 0 :=
  getD_symm_of_rev_eq (reverse_mirrorNegIc z) hi

lemma getD_mirrorPos_anti (z : List ℚ) (hz : z.getD 0 0 = 0) {i : Nat}
    (hi : i < (mirrorPos z).length) :
    (mirrorPos z).getD i 0
      = -((mirrorPos z).getD ((mirrorPos z).length - 1 - i) 0) := by
  cases z with
  | nil => simp [mirrorPos] at hi
  | cons a t =>
    have ha : a = 0 := by simpa using hz
    subst ha
    exact getD_antisymm_of_rev_eq_map_neg (reverse_mirrorPos_of_head_zero t) hi

lemma getD_mirrorNeg_anti (z : List ℚ) (hne : z ≠ [])
    (hz : z.getD (z.length - 1) 0 = 0) {i : Nat}
    (hi : i < (mirrorNeg z).length) :
    (mirrorNeg z).getD i 0
      = -((mirrorNeg z).getD ((mirrorNeg z).length - 1 - i) 0) := by
  rcases List.eq_nil_or_concat z with rfl | ⟨s, a, rfl⟩
  · exact absurd rfl hne
  · have ha : a = 0 := by
      have hlen : (s.concat a).length - 1 = s.length := by simp
      rw [hlen] at hz
      simpa [List.concat_eq_append] using hz
    subst ha
    rw [List.concat_eq_append] at hi ⊢
    exact getD_antisymm_of_rev_eq_map_neg (reverse_mirrorNeg_of_last_zero s) hi

lemma length_ascField (field : List ℚ) : (ascField field).length = field.length := by
  rw [ascField]
  split <;> simp

/-- C7 counterexample: on field = [1, 2], ic = [3, 4] the output is
field' = [-2, 1, 2], ic' = [4, 3, 4]: ic' is index-symmetric but field' is
not antisymmetric — at the middle index, field'[1] = 1 while
-field'[len-1-1] = -1, because the kept side's sample closest to zero
(field[0] = 1) is not exactly 0 and the code never negates the pivot
sample. -/
theorem symmetrize_center_not_negated_cex :
    (symmetrize_fraunhofer [1, 2] [3, 4]).1.getD 1 0
      ≠ -((symmetrize_fraunhofer [1, 2] [3, 4]).1.getD
          ((symmetrize_fraunhofer [1, 2] [3, 4]).1.length - 1 - 1) 0) := by
  norm_num [symmetrize_fraunhofer, ascField, ascIc, argminAbs, minAbsIdx,
    mirrorPos, mirrorPosIc, mirrorNeg, mirrorNegIc]

/-- C7 (amended): the ic output of `symmetrize_fraunhofer` is
index-symmetric for every input, unconditionally; the field output is
antisymmetric (field'[i] = -field'[len-1-i] for every i) provided the
normalized field's sample closest to zero is exactly 0 — without that
proviso the antisymmetry fails exactly at the middle index, which holds the
un-negated pivot sample. -/
theorem symmetrize_symmetric_of_zero_center (field ic : List ℚ) :
    (∀ i < (symmetrize_fraunhofer field ic).2.length,
      (symmetrize_fraunhofer field ic).2.getD i 0
        = (symmetrize_fraunhofer field ic).2.getD
            ((symmetrize_fraunhofer field ic).2.length - 1 - i) 0) ∧
    ((ascField field).getD (argminAbs (ascField field)) 0 = 0 →
      ∀ i < (symmetrize_fraunhofer field ic).1.length,
        (symmetrize_fraunhofer field ic).1.getD i 0
          = -((symmetrize_fraunhofer field ic).1.getD
              ((symmetrize_fraunhofer field ic).1.length - 1 - i) 0)) := by
  by_cases hA : argminAbs (ascField field) = 0
  · have hout : symmetrize_fraunhofer field ic
        = (mirrorPos (ascField field), mirrorPosIc (ascIc field ic)) := by
      simp only [symmetrize_fraunhofer]
      rw [if_pos hA]
    rw [hout]
    constructor
    · intro i hi
      exact getD_mirrorPosIc_symm _ hi
    · intro hzero i hi
      exact getD_mirrorPos_anti _ (hA ▸ hzero) hi
  · have hFne : ascField field ≠ [] := by
      intro hc
      apply hA
      rw [hc]
      rfl
    have hidx : argminAbs (ascField field) < (ascField field).length :=
      argminAbs_lt_length hFne
    by_cases hB : argminAbs (ascField field) = (ascField field).length - 1
    · have hout : symmetrize_fraunhofer field ic
          = (mirrorNeg (ascField field), mirrorNegIc (ascIc field ic)) := by
        simp only [symmetrize_fraunhofer]
        rw [if_neg hA, if_pos hB]
      rw [hout]
      constructor
      · intro i hi
        exact getD_mirrorNegIc_symm _ hi
      · intro hzero i hi
        exact getD_mirrorNeg_anti _ hFne (hB ▸ hzero) hi
    · by_cases hC : (ascField field).length - argminAbs (ascField field) - 1
          < argminAbs (ascField field)
      · have hout : symmetrize_fraunhofer field ic
            = (mirrorNeg ((ascField field).take (argminAbs (ascField field) + 1)),
               mirrorNegIc ((ascIc field ic).take (argminAbs (ascField field) + 1))) := by
          simp only [symmetrize_fraunhofer]
          rw [if_neg hA, if_neg hB, if_pos hC]
        have htlen : ((ascField field).take (argminAbs (ascField field) + 1)).length
            = argminAbs (ascField field) + 1 := by
          simp [List.length_take]
          omega
        have htne : (ascField field).take (argminAbs (ascField field) + 1) ≠ [] := by
          apply List.length_pos.mp
          omega
        rw [hout]
        constructor
        · intro i hi
          exact getD_mirrorNegIc_symm _ hi
        · intro hzero i hi
          have htz : ((ascField field).take (argminAbs (ascField field) + 1)).getD
              (((ascField field).take (argminAbs (ascField field) + 1)).length - 1) 0
                = 0 := by
            rw [htlen]
            simpa [getD_take_eq (Nat.lt_succ_self _) hidx] using hzero
          exact getD_mirrorNeg_anti _ htne htz hi
      · have hout : symmetrize_fraunhofer field ic
            = (mirrorPos ((ascField field).drop (argminAbs (ascField field))),
               mirrorPosIc ((ascIc field ic).drop (argminAbs (ascField field)))) := by
          simp only [symmetrize_fraunhofer]
          rw [if_neg hA, if_neg hB, if_neg hC]
        rw [hout]
        constructor
        · intro i hi
          exact getD_mirrorPosIc_symm _ hi
        · intro hzero i hi
          have hdz : ((ascField field).drop (argminAbs (ascField field))).getD 0 0
              = 0 := by
            rw [getD_drop_zero hidx]
            exact hzero
          exact getD_mirrorPos_anti _ hdz hi

theorem symmetrize_symmetric_of_zero_center_witness :
    (ascField [-1, 0, 1]).getD (argminAbs (ascField [-1, 0, 1])) 0 = 0 ∧
    (∀ i < (symmetrize_fraunhofer [-1, 0, 1] [5, 6, 5]).2.length,
      (symmetrize_fraunhofer [-1, 0, 1] [5, 6, 5]).2.getD i 0
        = (symmetrize_fraunhofer [-1, 0, 1] [5, 6, 5]).2.getD
            ((symmetrize_fraunhofer [-1, 0, 1] [5, 6, 5]).2.length - 1 - i) 0) ∧
    (∀ i < (symmetrize_fraunhofer [-1, 0, 1] [5, 6, 5]).1.length,
      (symmetrize_fraunhofer [-1, 0, 1] [5, 6, 5]).1.getD i 0
        = -((symmetrize_fraunhofer [-1, 0, 1] [5, 6, 5]).1.getD
            ((symmetrize_fraunhofer [-1, 0, 1] [5, 6, 5]).1.length - 1 - i) 0)) := by
  have hz : (ascField [-1, 0, 1]).getD (argminAbs (ascField [-1, 0, 1])) 0 = 0 := by
    norm_num [ascField, argminAbs, minAbsIdx]
  exact ⟨hz,
    (symmetrize_symmetric_of_zero_center [-1, 0, 1] [5, 6, 5]).1,
    (symmetrize_symmetric_of_zero_center [-1, 0, 1] [5, 6, 5]).2 hz⟩

/-- C8 counterexample: on field = [-3,-2,-1,0,1,2] the kept negative
segment is [-3,-2,-1,0] (four samples: the three negative fields plus the
zero sample), so the output length is 2 x 4 - 1 = 7, not 2 x 5 - 1 = 9 as
claimed. -/
theorem symmetrize_example_length_cex :
    (symmetrize_fraunhofer [-3, -2, -1, 0, 1, 2] [1, 2, 3, 9, 3, 2]).1.length = 7 ∧
    (7 : Nat) ≠ 9 := by
  constructor
  · norm_num [symmetrize_fraunhofer, ascField, ascIc, argminAbs, minAbsIdx,
      mirrorPos, mirrorPosIc, mirrorNeg, mirrorNegIc]
  · decide

/-- C8 (amended): on field = [-3,-2,-1,0,1,2], ic = [1,2,3,9,3,2] the
negative side is kept (the output is the kept segment [-3,-2,-1,0] with its
mirror appended) and the output length is 2 x 4 - 1 = 7. -/
theorem symmetrize_example_output :
    symmetrize_fraunhofer [-3, -2, -1, 0, 1, 2] [1, 2, 3, 9, 3, 2]
      = ([-3, -2, -1, 0, 1, 2, 3], [1, 2, 3, 9, 3, 2, 1]) := by
  norm_num [symmetrize_fraunhofer, ascField, ascIc, argminAbs, minAbsIdx,
    mirrorPos, mirrorPosIc, mirrorNeg, mirrorNegIc]
